import Mathlib

/-!
# Verification of the ityfuzz EVM-fuzzer core against its specification

Shallow embedding, translated from the Rust sources:
* `src/evm/corpus_initializer.rs` (ABI recovery, seed-input fabrication),
* `src/evm/onchain/flashloan.rs`  (flash-loan middleware),
* `src/evm/onchain/offchain.rs`   (off-chain pair cache),
* `src/evm/tokens/uniswap.rs`     (on-chain swap-path discovery),
* `src/evm/oracles/typed_bug.rs`  (typed-bug oracle).

EVM words (`EVMU256`) are modelled as `Nat`; the `EVMU512` accumulators of
the flash-loan ledger have wrapping semantics, modelled with an explicit
`% 2 ^ 512`.  Addresses are modelled as `Nat` (20-byte values); the pair
cache and path discovery key tokens by their formatted string, exactly as
the Rust code does, so those components use `String` tokens.
-/

namespace Ity

/-! ## ABI configuration (`contract_utils::ABIConfig`)

Only the fields that the verified components inspect are carried:
the 4-byte selector (`function`), the function name, the ABI type string
and the three classification flags. -/

structure ABIConfig where
  function : Nat
  functionName : String
  abi : String
  isConstructor : Bool
  isStatic : Bool
  isPayable : Bool
  deriving Repr, DecidableEq

/-- `ABIMap.get`: the selector-to-ABI map on the fuzz state metadata,
modelled as a lookup function. -/
def ABIMap := Nat → Option ABIConfig

/-! ## C1 — ABI recovery (`EVMCorpusInitializer::initialize_corpus`,
`corpus_initializer.rs:267-303`)

For a contract whose ABI is empty the initializer extracts the selectors
from the bytecode, resolves each against the shared `ABIMap`, counts the
unresolved ones, and decides whether to call the Heimdall decompiler with
`unknown_sigs >= sigs.len() / 30` (Rust `usize` division, i.e. floor).
When Heimdall runs, each returned ABI is replaced by the `ABIMap` entry
for its selector when one exists. -/

/-- The ABIs resolved against the `ABIMap`, in selector order
(the `for sig in &sigs { ... contract.abi.push(abi.clone()) }` loop). -/
def resolvedAbis (sigs : List Nat) (m : ABIMap) : List ABIConfig :=
  sigs.filterMap m

/-- `unknown_sigs`: the number of extracted selectors missing from the `ABIMap`. -/
def unknownSigs (sigs : List Nat) (m : ABIMap) : Nat :=
  (sigs.filter (fun s => (m s).isNone)).length

/-- The Heimdall branch condition as written in the source:
`unknown_sigs >= sigs.len() / 30` (floor division on `usize`). -/
def invokesHeimdall (sigs : List Nat) (m : ABIMap) : Bool :=
  unknownSigs sigs m ≥ sigs.length / 30

/-- The branch condition as the specification states it:
strictly more than 1/30 of the selectors are unknown,
i.e. `N − K > N / 30` over the rationals (`30 · (N − K) > N`). -/
def heimdallSpecCond (n k : Nat) : Prop :=
  30 * (n - k) > n

instance (n k : Nat) : Decidable (heimdallSpecCond n k) := by
  unfold heimdallSpecCond; infer_instance

/-- ABI recovery for one empty-ABI contract: returns the recovered ABI
list together with whether Heimdall was invoked.  `heimdall` is the list
the external decompiler would return for this bytecode. -/
def recoverAbi (sigs : List Nat) (m : ABIMap) (heimdall : List ABIConfig) :
    List ABIConfig × Bool :=
  let resolved := resolvedAbis sigs m
  if invokesHeimdall sigs m then
    (heimdall.map (fun abi =>
      match m abi.function with
      | some knownAbi => knownAbi
      | none => abi), true)
  else
    (resolved, false)

end Ity

namespace Ity

/-- A sample ABI entry used by concrete evaluations. -/
def sampleAbi : ABIConfig :=
  { function := 0x12345678, functionName := "f", abi := "()",
    isConstructor := false, isStatic := false, isPayable := false }

/-- An `ABIMap` that resolves exactly the selector of `sampleAbi`. -/
def sampleMap : ABIMap := fun s =>
  if s = sampleAbi.function then some sampleAbi else none

end Ity

/-- **C1, counterexample.**  A contract whose bytecode yields a single
selector that the `ABIMap` resolves (`N = 1`, `K = 1`): the code invokes
Heimdall (`unknown_sigs = 0 ≥ 1 / 30 = 0`), while the claimed condition
`N − K > N / 30` is false.  So "Heimdall is invoked iff N − K > N / 30"
fails at this input. -/
theorem c1_counterexample :
    Ity.invokesHeimdall [Ity.sampleAbi.function] Ity.sampleMap = true ∧
      ¬ Ity.heimdallSpecCond 1 1 := by
  constructor
  · decide
  · decide

/-- **C1, amended.**  During ABI recovery for an empty-ABI contract with
`N` extracted selectors and `K` of them resolved against the `ABIMap`,
Heimdall is invoked iff `N − K ≥ ⌊N / 30⌋` (non-strict, floor division —
in particular it is always invoked when `N < 30`); when it is not
invoked, the contract's ABI is exactly the `K` resolved `ABIConfig`s. -/
theorem c1_abi_recovery_amended (sigs : List Nat) (m : Ity.ABIMap)
    (heimdall : List Ity.ABIConfig) :
    ((Ity.recoverAbi sigs m heimdall).2 = true ↔
      Ity.unknownSigs sigs m ≥ sigs.length / 30) ∧
    ((Ity.recoverAbi sigs m heimdall).2 = false →
      (Ity.recoverAbi sigs m heimdall).1 = Ity.resolvedAbis sigs m) := by
  unfold Ity.recoverAbi Ity.invokesHeimdall
  constructor
  · by_cases h : Ity.unknownSigs sigs m ≥ sigs.length / 30 <;> simp [h]
  · by_cases h : Ity.unknownSigs sigs m ≥ sigs.length / 30 <;> simp [h]

/-- **C1, witness.**  Thirty selectors, all resolved: Heimdall is not
invoked (`0 ≥ ⌊30 / 30⌋ = 1` fails) and the recovered ABI is exactly the
resolved list. -/
theorem c1_abi_recovery_amended_witness :
    ((Ity.recoverAbi (List.range 30) (fun _ => some Ity.sampleAbi) []).2 = true ↔
      Ity.unknownSigs (List.range 30) (fun _ => some Ity.sampleAbi) ≥
        (List.range 30).length / 30) ∧
    ((Ity.recoverAbi (List.range 30) (fun _ => some Ity.sampleAbi) []).2 = false →
      (Ity.recoverAbi (List.range 30) (fun _ => some Ity.sampleAbi) []).1 =
        Ity.resolvedAbis (List.range 30) (fun _ => some Ity.sampleAbi)) :=
  c1_abi_recovery_amended (List.range 30) (fun _ => some Ity.sampleAbi) []

namespace Ity
namespace OffChain

/-! ## Off-chain pair cache (`onchain/offchain.rs`)

Tokens and pairs are keyed by their formatted address string, exactly as
`build_pair_cache` does (`format!("{:?}", token)`). -/

/-- `PairData` (the fields populated and read by the off-chain config). -/
structure PairData where
  pair : String
  token0 : String
  token1 : String
  decimals0 : Nat
  decimals1 : Nat
  initialReserves0 : Nat
  initialReserves1 : Nat
  in_ : Nat
  next : String
  inToken : String
  interface : String
  srcExact : String
  src : String
  deriving Repr, DecidableEq

/-- The `..Default::default()` remainder of the `PairData` literal in
`build_cache`. -/
def PairData.default : PairData :=
  { pair := "", token0 := "", token1 := "", decimals0 := 0, decimals1 := 0,
    initialReserves0 := 0, initialReserves1 := 0, in_ := 0, next := "",
    inToken := "", interface := "", srcExact := "", src := "" }

/-- `WETH` constant of `offchain.rs`. -/
def WETH : String := "0x4200000000000000000000000000000000000006"

/-- `get_pegged_token().values()` for the off-chain config:
the single entry `("WETH", WETH)`. -/
def peggedTokenValues : List String := [WETH]

/-- `OffChainConfig::build_pair_cache` (`offchain.rs:140-158`): the entry
pushed into `pair_cache[token]`, translated verbatim — including the
`else` branch of `next`, which stores `in_token` itself. -/
def buildPairCacheEntry (token : String) (pair : PairData) : PairData :=
  let inToken := token
  { pair with
    in_ := if inToken = pair.token0 then 0 else 1,
    next := if inToken = pair.token0 then pair.token1 else inToken,
    inToken := inToken,
    interface := "uniswapv2",
    srcExact := "uniswapv2_eth",
    src := if peggedTokenValues.contains inToken then "pegged" else "lp" }

/-- The off-chain configuration's caches
(`pair_cache`, `reserves_cache`, `balance_cache`). -/
structure OffChainConfig where
  pairCache : List (String × List PairData)
  reservesCache : List (String × (Nat × Nat))
  balanceCache : List ((String × String) × Nat)
  deriving Repr, DecidableEq

/-- `ChainConfig::get_pair` for `OffChainConfig` (`offchain.rs:229-232`):
clone the cached list, or the empty list on a miss.  The Rust receiver is
`&mut self`; the returned configuration witnesses that the body performs
no write. -/
def getPair (c : OffChainConfig) (token : String) (_isPegged : Bool) :
    List PairData × OffChainConfig :=
  ((c.pairCache.lookup token).getD [], c)

/-- `ChainConfig::fetch_reserve` (`offchain.rs:234-238`): decimal strings
of the cached reserves, `None` on a miss. -/
def fetchReserve (c : OffChainConfig) (pair : String) : Option (String × String) :=
  (c.reservesCache.lookup pair).map fun r => (toString r.1, toString r.2)

/-- `ChainConfig::get_token_balance` (`offchain.rs:248-250`): cached
balance under the key `(address, token)`, zero on a miss; `&mut self`
receiver with no write. -/
def getTokenBalance (c : OffChainConfig) (token address : String) :
    Nat × OffChainConfig :=
  ((c.balanceCache.lookup (address, token)).getD 0, c)

end OffChain
end Ity

/-- **C2, failing input evaluated.**  A pair with `token0 = A` and
`token1 = B` (distinct, neither pegged): the entry the code stores under
`A` has `in_ = 0`, `next = B`, `src = "lp"` as claimed, but the entry
stored under `B` has `in_ = 1` and `next = B` — the keyed token itself,
not the other side's address `A`.  The `else` branch of
`build_pair_cache` stores `in_token` where the other side `token0` was
intended. -/
theorem c2_pair_cache_next_bug :
    (Ity.OffChain.buildPairCacheEntry "0xaaaa"
        { Ity.OffChain.PairData.default with
            pair := "0xpppp", token0 := "0xaaaa", token1 := "0xbbbb" }).next =
      "0xbbbb" ∧
    (Ity.OffChain.buildPairCacheEntry "0xbbbb"
        { Ity.OffChain.PairData.default with
            pair := "0xpppp", token0 := "0xaaaa", token1 := "0xbbbb" }).in_ = 1 ∧
    (Ity.OffChain.buildPairCacheEntry "0xbbbb"
        { Ity.OffChain.PairData.default with
            pair := "0xpppp", token0 := "0xaaaa", token1 := "0xbbbb" }).next =
      "0xbbbb" := by
  refine ⟨?_, ?_, ?_⟩ <;> rfl

/-- **C10.**  The off-chain chain-config queries degrade totally on cache
misses: a token with no `pair_cache` entry yields the empty pair list, a
pair with no cached reserves yields `None`, and a `(token, address)` pair
never cached yields balance zero — and each query returns the
configuration unchanged (no cache mutation, no failure). -/
theorem c10_offchain_cache_miss (c : Ity.OffChain.OffChainConfig)
    (token pair tok addr : String) (isPegged : Bool)
    (h1 : c.pairCache.lookup token = none)
    (h2 : c.reservesCache.lookup pair = none)
    (h3 : c.balanceCache.lookup (addr, tok) = none) :
    Ity.OffChain.getPair c token isPegged = ([], c) ∧
    Ity.OffChain.fetchReserve c pair = none ∧
    Ity.OffChain.getTokenBalance c tok addr = (0, c) := by
  refine ⟨?_, ?_, ?_⟩
  · simp [Ity.OffChain.getPair, h1]
  · simp [Ity.OffChain.fetchReserve, h2]
  · simp [Ity.OffChain.getTokenBalance, h3]

/-- **C10, witness.**  The empty configuration misses on every key;
all three queries degrade as stated. -/
theorem c10_offchain_cache_miss_witness :
    Ity.OffChain.getPair ⟨[], [], []⟩ "0xt" true = ([], ⟨[], [], []⟩) ∧
    Ity.OffChain.fetchReserve ⟨[], [], []⟩ "0xp" = none ∧
    Ity.OffChain.getTokenBalance ⟨[], [], []⟩ "0xt" "0xa" = (0, ⟨[], [], []⟩) :=
  c10_offchain_cache_miss ⟨[], [], []⟩ "0xt" "0xp" "0xt" "0xa" true rfl rfl rfl

namespace Ity
namespace Uniswap

/-! ## On-chain swap-path discovery (`tokens/uniswap.rs`)

Tokens are their formatted address strings.  The chain endpoint
(`OnChainConfig`) is abstracted as a record of query functions:
`pairsOf` models `onchain.get_pair`, `reserveOf` models `fetch_reserve`
together with the string round-trip of the reserve values, and `rateFor`
models the IEEE-754 `(other / in) × 10⁶` rounding of
`get_pegged_next_hop` (floating-point arithmetic is kept abstract; its
output feeds only the `rate` field, which no structural property below
inspects). -/

/-- `PairData` as used by path discovery; reserve strings are carried as
their parsed numeric values. -/
structure PairData where
  src : String
  in_ : Nat
  next : String
  pair : String
  initialReserves0 : Nat
  initialReserves1 : Nat
  srcExact : String
  decimals0 : Nat
  decimals1 : Nat
  rate : Nat
  deriving Repr, DecidableEq

/-- The abstract chain endpoint. -/
structure Chain where
  pairsOf : String → Bool → List PairData
  reserveOf : String → Nat × Nat
  rateFor : Nat → Nat → Nat

/-- `MAX_HOPS` (`uniswap.rs:38`). -/
def MAX_HOPS : Nat := 2

/-- `get_pegged_token(network).values()` (`uniswap.rs:133-179`); only
membership is ever queried, so the map is carried as its value list. -/
def peggedValues (network : String) : List String :=
  match network with
  | "eth" =>
    ["0xc02aaa39b223fe8d0a0e5c4f27ead9083c756cc2",
     "0xa0b86991c6218b36c1d19d4a2e9eb0ce3606eb48",
     "0xdac17f958d2ee523a2206206994597c13d831ec7",
     "0x6b175474e89094c44da98b954eedeac495271d0f",
     "0x2260fac5e5542a773aa44fbcfedf7c193bc2c599",
     "0x7d1afa7b718fb893db30a3abc0cfc608aacfebb0"]
  | "local" => ["0x0000000000000000000000000000000000000000"]
  | _ => []

/-- `get_weth(network)` (`uniswap.rs:117-131`), for the networks the
model carries. -/
def getWeth (network : String) : String :=
  match network with
  | "eth" => "0xc02aaa39b223fe8d0a0e5c4f27ead9083c756cc2"
  | "local" => "0x0000000000000000000000000000000000000000"
  | _ => ""

/-- `token.to_lowercase()`, written out so that it reduces in the kernel. -/
def lowercase (s : String) : String :=
  String.mk (s.data.map Char.toLower)

/-- `get_pair` wrapper (`uniswap.rs:181-199`): empty for the wrapped
native asset; when more than 10 candidates exist, keep only pairs whose
`next` is pegged. -/
def getPair (c : Chain) (token network : String) (isPegged : Bool) : List PairData :=
  let token := lowercase token
  if token = getWeth network then []
  else
    let pairs := c.pairsOf token (isPegged || decide (token ∈ peggedValues network))
    if pairs.length > 10 then
      pairs.filter (fun p => decide (p.next ∈ peggedValues network))
    else pairs

/-- HashSet insertion on the known/visited sets. -/
def insertStr (s : String) (set : List String) : List String :=
  if s ∈ set then set else s :: set

/-- The hops map `HashMap<String, Vec<PairData>>`. -/
abbrev HopsMap := List (String × List PairData)

/-- `get_all_hops` (`uniswap.rs:201-228`), with the `hop` counter turned
into the fuel `MAX_HOPS + 1 − hop`: fuel `0` is the `hop > MAX_HOPS`
cutoff (which still inserts the token into `known`). -/
def getAllHopsAux (c : Chain) (network : String) :
    Nat → String → List String → HopsMap × List String
  | 0, token, known => ([], insertStr token known)
  | fuel + 1, token, known =>
    let known := insertStr token known
    let pairs := getPair c token network false
    pairs.foldl
      (fun (acc : HopsMap × List String) i =>
        if i.next ∈ peggedValues network ∨ i.next ∈ acc.2 then acc
        else
          let r := getAllHopsAux c network fuel i.next acc.2
          (acc.1 ++ r.1, r.2))
      ([(token, pairs)], known)

/-- `get_all_hops(onchain, token, network, 0, known)`. -/
def getAllHops (c : Chain) (network token : String) (known : List String) :
    HopsMap × List String :=
  getAllHopsAux c network (MAX_HOPS + 1) token known

/-- `add_reserve_info` (`uniswap.rs:267-293`): fills the reserves from
the endpoint and reports whether the pair is significant. -/
def addReserveInfo (c : Chain) (p : PairData) : PairData × Bool :=
  if p.src = "pegged_weth" then (p, true)
  else
    let r := c.reserveOf p.pair
    let p := { p with initialReserves0 := r.1, initialReserves1 := r.2 }
    let minR0 := if p.decimals0 = 0 then 0 else 10 ^ (p.decimals0 - 1)
    let minR1 := if p.decimals1 = 0 then 0 else 10 ^ (p.decimals1 - 1)
    (p, decide (p.initialReserves0 > minR0 ∧ p.initialReserves1 > minR1))

/-- `get_pegged_next_hop` (`uniswap.rs:230-264`).  The source `expect`s a
first pair from the endpoint; an absent pair is modelled as `none`.  The
floating-point rate is delegated to `Chain.rateFor`. -/
def getPeggedNextHop (c : Chain) (token network : String) : Option PairData :=
  if token = getWeth network then
    some { src := "pegged_weth", rate := 1000000, in_ := 0, next := "", pair := "",
           initialReserves0 := 0, initialReserves1 := 0, srcExact := "",
           decimals0 := 0, decimals1 := 0 }
  else
    match (getPair c token network true).head? with
    | none => none
    | some pegInfo =>
      let pegInfo := (addReserveInfo c pegInfo).1
      let rate :=
        if pegInfo.in_ = 0 then c.rateFor pegInfo.initialReserves1 pegInfo.initialReserves0
        else c.rateFor pegInfo.initialReserves0 pegInfo.initialReserves1
      some { pegInfo with src := "pegged", rate := rate }

/-- `dfs` (`uniswap.rs:306-334`), fuel-indexed: `routes` and `visited`
accumulate across the whole traversal, `path` is pushed/popped around
each recursive call.  The fuel-0 branch is unreachable for adequate fuel
(the recursion depth is bounded by the hops map). -/
def dfs (c : Chain) (network : String) (hops : HopsMap) :
    Nat → String → List PairData → List String → List (List PairData) →
      List (List PairData) × List String
  | 0, _, _, visited, routes => (routes, visited)
  | fuel + 1, token, path, visited, routes =>
    if token ∈ peggedValues network then
      match getPeggedNextHop c token network with
      | some h => (routes ++ [path ++ [h]], visited)
      | none => (routes, visited)
    else
      let visited := insertStr token visited
      match hops.lookup token with
      | none => (routes, visited)
      | some lst =>
        lst.foldl
          (fun (acc : List (List PairData) × List String) hop =>
            if hop.next ∈ acc.2 then acc
            else dfs c network hops fuel hop.next (path ++ [hop]) acc.2 acc.1)
          (routes, visited)

/-- `find_path_subgraph` (`uniswap.rs:336-379`): pegged short-circuit,
hop collection, DFS, then the low-liquidity filter (which also writes the
fetched reserves into the surviving hops). -/
def findPathSubgraph (c : Chain) (network token : String) : List (List PairData) :=
  if token ∈ peggedValues network then
    match getPeggedNextHop c token network with
    | some h => [[h]]
    | none => []
  else
    let hops := (getAllHops c network token []).1
    let routes := (dfs c network hops (hops.length + 2) token [] [] []).1
    (routes.filter (fun route => route.all (fun hop => (addReserveInfo c hop).2))).map
      (fun route => route.map (fun hop => (addReserveInfo c hop).1))

end Uniswap
end Ity

namespace Ity
namespace Uniswap

/-- A plain `"v2"` hop for concrete chain configurations. -/
def mkHop (nxt pr : String) : PairData :=
  { src := "v2", in_ := 0, next := nxt, pair := pr,
    initialReserves0 := 0, initialReserves1 := 0, srcExact := "",
    decimals0 := 0, decimals1 := 0, rate := 0 }

/-- The USDC entry of the eth pegged-asset table. -/
def usdc : String := "0xa0b86991c6218b36c1d19d4a2e9eb0ce3606eb48"

/-- A concrete chain endpoint whose pair graph is the path
`0xt0 → 0xa1 → 0xb2 → USDC`: every token has a single pair leading to the
next one, and USDC (pegged) has a pair for the terminal hop. -/
def cEx : Chain :=
  { pairsOf := fun token _flag =>
      if token = "0xt0" then [mkHop "0xa1" "0xp1"]
      else if token = "0xa1" then [mkHop "0xb2" "0xp2"]
      else if token = "0xb2" then [mkHop usdc "0xp3"]
      else if token = usdc then [mkHop "0xt0" "0xp4"]
      else [],
    reserveOf := fun _ => (100, 100),
    rateFor := fun _ _ => 123456 }

/-- A hop is a non-pegged (route-interior) hop when its `src` tag is
neither `"pegged"` nor `"pegged_weth"`. -/
def isInteriorHop (h : PairData) : Bool :=
  !(h.src == "pegged" || h.src == "pegged_weth")

end Uniswap
end Ity

/-- **C4, counterexample.**  On the pair graph
`0xt0 → 0xa1 → 0xb2 → USDC` the discovery places exactly one route, and
that route has 3 non-pegged hops before the terminal pegged hop: the
hops map records pair lists for tokens expanded at recursion depths 0, 1
and 2, each of which contributes one edge, so the claimed bound
`MAX_HOPS = 2` is exceeded. -/
theorem c4_counterexample :
    (Ity.Uniswap.findPathSubgraph Ity.Uniswap.cEx "eth" "0xt0").map
        (fun r => (r.filter Ity.Uniswap.isInteriorHop).length) = [3] := by
  rfl

namespace Ity
namespace Uniswap

/-- A hop is a terminal pegged hop when `src` is `"pegged"` or
`"pegged_weth"` (the two tags `get_pegged_next_hop` emits). -/
def isTerminalPegged (h : PairData) : Prop :=
  h.src = "pegged" ∨ h.src = "pegged_weth"

/-- Well-formed route shape relative to a hops map: starting at `t` with
the tokens in `seen` excluded, the route walks edges recorded in the map
for pairwise-distinct non-pegged source tokens and ends with a terminal
pegged hop at a pegged token. -/
def routeOk (network : String) (H : HopsMap) :
    List String → String → List PairData → Prop
  | _, _, [] => False
  | _, t, [term] => t ∈ peggedValues network ∧ isTerminalPegged term
  | seen, t, e :: e2 :: rest =>
    t ∉ seen ∧ t ∉ peggedValues network ∧ e ∈ (H.lookup t).getD [] ∧
      routeOk network H (t :: seen) e.next (e2 :: rest)

/-- `path` is a walk from `t0` (with `seen` excluded) to `t`, whose
source tokens accumulate to `seen'`. -/
def chainTo (network : String) (H : HopsMap) :
    List String → String → List PairData → String → List String → Prop
  | seen, t0, [], t, seen' => t = t0 ∧ seen' = seen
  | seen, t0, e :: p, t, seen' =>
    t0 ∉ seen ∧ t0 ∉ peggedValues network ∧ e ∈ (H.lookup t0).getD [] ∧
      chainTo network H (t0 :: seen) e.next p t seen'

theorem mem_insertStr {a s : String} {set : List String} :
    a ∈ insertStr s set ↔ a = s ∨ a ∈ set := by
  unfold insertStr
  by_cases h : s ∈ set
  · simp [h]; intro ha; subst ha; exact h
  · simp [h]

theorem subset_insertStr {s : String} {set : List String} :
    set ⊆ insertStr s set := by
  intro a ha; exact mem_insertStr.mpr (Or.inr ha)

theorem mem_insertStr_self {s : String} {set : List String} :
    s ∈ insertStr s set := mem_insertStr.mpr (Or.inl rfl)

/-- Whatever `get_pegged_next_hop` returns carries a terminal tag. -/
theorem getPeggedNextHop_terminal {c : Chain} {token network : String}
    {h : PairData} (hh : getPeggedNextHop c token network = some h) :
    isTerminalPegged h := by
  unfold getPeggedNextHop at hh
  by_cases hw : token = getWeth network
  · simp [hw] at hh
    subst hh; right; rfl
  · simp [hw] at hh
    cases hhead : (getPair c token network true).head? with
    | none => rw [hhead] at hh; simp at hh
    | some p =>
      rw [hhead] at hh
      simp at hh
      subst hh; left; rfl

theorem chainTo_routeOk {network : String} {H : HopsMap} :
    ∀ (path : List PairData) (seen : List String) (t0 t : String)
      (seen' : List String) (s : List PairData),
      chainTo network H seen t0 path t seen' →
      routeOk network H seen' t s → s ≠ [] →
      routeOk network H seen t0 (path ++ s) := by
  intro path
  induction path with
  | nil =>
    intro seen t0 t seen' s hc hr _
    obtain ⟨ht, hs⟩ := hc
    subst ht; subst hs; simpa using hr
  | cons e p ih =>
    intro seen t0 t seen' s hc hr hne
    obtain ⟨h1, h2, h3, h4⟩ := hc
    have hps : p ++ s ≠ [] := by
      intro hcon
      exact hne (List.append_eq_nil.mp hcon).2
    obtain ⟨y, ys, hys⟩ := List.exists_cons_of_ne_nil hps
    have : routeOk network H (t0 :: seen) e.next (p ++ s) :=
      ih (t0 :: seen) e.next t seen' s h4 hr hne
    show routeOk network H seen t0 (e :: (p ++ s))
    rw [hys] at this ⊢
    exact ⟨h1, h2, h3, this⟩

theorem chainTo_snoc {network : String} {H : HopsMap} :
    ∀ (path : List PairData) (seen : List String) (t0 t : String)
      (seen' : List String) (e : PairData),
      chainTo network H seen t0 path t seen' →
      t ∉ seen' → t ∉ peggedValues network → e ∈ (H.lookup t).getD [] →
      chainTo network H seen t0 (path ++ [e]) e.next (t :: seen') := by
  intro path
  induction path with
  | nil =>
    intro seen t0 t seen' e hc hns hnp he
    obtain ⟨ht, hs⟩ := hc
    subst ht; subst hs
    exact ⟨hns, hnp, he, rfl, rfl⟩
  | cons f p ih =>
    intro seen t0 t seen' e hc hns hnp he
    obtain ⟨h1, h2, h3, h4⟩ := hc
    exact ⟨h1, h2, h3, ih (t0 :: seen) f.next t seen' e h4 hns hnp he⟩

end Uniswap
end Ity

namespace Ity
namespace Uniswap

theorem foldlInv {α β : Type _} (g : β → α → β) (P : β → Prop) :
    ∀ (l : List α) (b : β), P b → (∀ b' a, a ∈ l → P b' → P (g b' a)) →
      P (l.foldl g b) := by
  intro l
  induction l with
  | nil => intro b hb _; simpa using hb
  | cons a l ih =>
    intro b hb hstep
    exact ih (g b a) (hstep b a (by simp) hb)
      (fun b' x hx => hstep b' x (by simp [hx]))

/-- The `visited` set only grows across a `dfs` traversal. -/
theorem dfs_visited_subset (c : Chain) (network : String) (H : HopsMap) :
    ∀ (fuel : Nat) (t : String) (path : List PairData) (visited : List String)
      (routes : List (List PairData)),
      visited ⊆ (dfs c network H fuel t path visited routes).2 := by
  intro fuel
  induction fuel with
  | zero => intro t path visited routes; simp [dfs]
  | succ fuel ih =>
    intro t path visited routes
    rw [dfs]
    by_cases hp : t ∈ peggedValues network
    · rw [if_pos hp]
      cases hh : getPeggedNextHop c t network with
      | none => exact fun a ha => ha
      | some h => exact fun a ha => ha
    · rw [if_neg hp]
      cases hl : H.lookup t with
      | none => exact subset_insertStr
      | some lst =>
        have hstep : ∀ (b' : List (List PairData) × List String) (a : PairData),
            a ∈ lst → insertStr t visited ⊆ b'.2 →
            insertStr t visited ⊆
              (if a.next ∈ b'.2 then b'
               else dfs c network H fuel a.next (path ++ [a]) b'.2 b'.1).2 := by
          intro b' a _ hb
          by_cases hnx : a.next ∈ b'.2
          · simpa [hnx] using hb
          · simp only [if_neg hnx]
            exact hb.trans (ih a.next (path ++ [a]) b'.2 b'.1)
        have hfold := foldlInv
          (fun (acc : List (List PairData) × List String) hop =>
            if hop.next ∈ acc.2 then acc
            else dfs c network H fuel hop.next (path ++ [hop]) acc.2 acc.1)
          (fun acc => insertStr t visited ⊆ acc.2) lst
          (routes, insertStr t visited) (fun a ha => ha) hstep
        intro a ha
        exact hfold (subset_insertStr ha)

/-- Every route `dfs` appends is a well-formed `routeOk` walk from the
root: sources pairwise distinct, non-pegged, edges drawn from the hops
map, terminal pegged hop at the end. -/
theorem dfs_routes_sound (c : Chain) (network : String) (H : HopsMap)
    (t0 : String) :
    ∀ (fuel : Nat) (t : String) (path : List PairData) (visited : List String)
      (routes : List (List PairData)) (seen' : List String),
      (∀ r ∈ routes, routeOk network H [] t0 r) →
      chainTo network H [] t0 path t seen' →
      seen' ⊆ visited → t ∉ seen' →
      ∀ r ∈ (dfs c network H fuel t path visited routes).1,
        routeOk network H [] t0 r := by
  intro fuel
  induction fuel with
  | zero =>
    intro t path visited routes seen' hr _ _ _ r hmem
    exact hr r (by simpa [dfs] using hmem)
  | succ fuel ih =>
    intro t path visited routes seen' hr hchain hsub hns r hmem
    rw [dfs] at hmem
    by_cases hp : t ∈ peggedValues network
    · rw [if_pos hp] at hmem
      cases hh : getPeggedNextHop c t network with
      | none => rw [hh] at hmem; exact hr r hmem
      | some h =>
        rw [hh] at hmem
        simp only [List.mem_append, List.mem_singleton] at hmem
        rcases hmem with hmem | hmem
        · exact hr r hmem
        · subst hmem
          refine chainTo_routeOk path [] t0 t seen' [h] hchain ?_ (by simp)
          exact ⟨hp, getPeggedNextHop_terminal hh⟩
    · rw [if_neg hp] at hmem
      simp only at hmem
      cases hl : H.lookup t with
      | none => rw [hl] at hmem; exact hr r hmem
      | some lst =>
        rw [hl] at hmem
        have hfold := foldlInv
          (fun (acc : List (List PairData) × List String) hop =>
            if hop.next ∈ acc.2 then acc
            else dfs c network H fuel hop.next (path ++ [hop]) acc.2 acc.1)
          (fun acc => (∀ r' ∈ acc.1, routeOk network H [] t0 r') ∧
            seen' ⊆ acc.2 ∧ t ∈ acc.2) lst
          (routes, insertStr t visited)
          ⟨hr, hsub.trans subset_insertStr, mem_insertStr_self⟩ ?_
        · exact hfold.1 r hmem
        · intro b' a ha hb
          by_cases hnx : a.next ∈ b'.2
          · simpa [hnx] using hb
          · simp only [if_neg hnx]
            have hedge : a ∈ (H.lookup t).getD [] := by rw [hl]; exact ha
            have hsubcons : t :: seen' ⊆ b'.2 := by
              intro x hx
              rcases List.mem_cons.mp hx with hx | hx
              · subst hx; exact hb.2.2
              · exact hb.2.1 hx
            have hchain' : chainTo network H [] t0 (path ++ [a]) a.next (t :: seen') :=
              chainTo_snoc path [] t0 t seen' a hchain hns hp hedge
            have hnotseen : a.next ∉ t :: seen' := fun hx => hnx (hsubcons hx)
            refine ⟨ih a.next (path ++ [a]) b'.2 b'.1 (t :: seen')
                hb.1 hchain' hsubcons hnotseen, ?_, ?_⟩
            · exact (hb.2.1.trans
                (dfs_visited_subset c network H fuel a.next (path ++ [a]) b'.2 b'.1))
            · exact dfs_visited_subset c network H fuel a.next (path ++ [a]) b'.2 b'.1 hb.2.2

end Uniswap
end Ity

namespace Ity
namespace Uniswap

/-- A chain endpoint that reports eleven pairs for every token, exactly
one of which leads to a pegged token. -/
def cCap : Chain :=
  { pairsOf := fun _ _ => List.replicate 10 (mkHop "0xq" "0xp8") ++ [mkHop usdc "0xp9"],
    reserveOf := fun _ => (100, 100),
    rateFor := fun _ _ => 123456 }

end Uniswap
end Ity

/-- **C4, amended.**  Every swap path placed by on-chain path discovery
ends in a terminal pegged hop that it reaches through non-pegged hops
whose source tokens are pairwise distinct (already-visited tokens are
pruned) and whose edges are drawn from the hops map that `get_all_hops`
records only for tokens expanded within `MAX_HOPS = 2` recursion levels
(`routeOk`); the bound on the number of non-pegged hops is therefore
`MAX_HOPS + 1 = 3`, not `MAX_HOPS`: a path with 3 non-pegged hops is
placed for a 3-chain pair graph.  When a token's pair list has more than
10 candidates it is restricted to pairs whose next token is pegged. -/
theorem c4_swap_path_structure_amended :
    (∀ (c : Ity.Uniswap.Chain) (network t0 : String) (fuel : Nat)
        (r : List Ity.Uniswap.PairData),
        r ∈ (Ity.Uniswap.dfs c network (Ity.Uniswap.getAllHops c network t0 []).1
              fuel t0 [] [] []).1 →
        Ity.Uniswap.routeOk network (Ity.Uniswap.getAllHops c network t0 []).1 [] t0 r) ∧
    (∀ (c : Ity.Uniswap.Chain) (network t0 : String),
        t0 ∉ Ity.Uniswap.peggedValues network →
        ∀ r ∈ Ity.Uniswap.findPathSubgraph c network t0,
          ∃ r0, Ity.Uniswap.routeOk network
              (Ity.Uniswap.getAllHops c network t0 []).1 [] t0 r0 ∧
            r = r0.map (fun h => (Ity.Uniswap.addReserveInfo c h).1)) ∧
    (∀ (c : Ity.Uniswap.Chain) (network t0 : String),
        t0 ∈ Ity.Uniswap.peggedValues network →
        ∀ r ∈ Ity.Uniswap.findPathSubgraph c network t0,
          ∃ h, r = [h] ∧ Ity.Uniswap.isTerminalPegged h) ∧
    (∀ (c : Ity.Uniswap.Chain) (network token : String) (isPegged : Bool),
        10 < (c.pairsOf (Ity.Uniswap.lowercase token)
            (isPegged || decide (Ity.Uniswap.lowercase token ∈
              Ity.Uniswap.peggedValues network))).length →
        ∀ p ∈ Ity.Uniswap.getPair c token network isPegged,
          p.next ∈ Ity.Uniswap.peggedValues network) ∧
    (∃ r ∈ Ity.Uniswap.findPathSubgraph Ity.Uniswap.cEx "eth" "0xt0",
        (r.filter Ity.Uniswap.isInteriorHop).length = Ity.Uniswap.MAX_HOPS + 1) := by
  refine ⟨?_, ?_, ?_, ?_, ?_⟩
  · intro c network t0 fuel r hmem
    exact Ity.Uniswap.dfs_routes_sound c network _ t0 fuel t0 [] [] [] []
      (by simp) ⟨rfl, rfl⟩ (by simp) (by simp) r hmem
  · intro c network t0 hnp r hmem
    unfold Ity.Uniswap.findPathSubgraph at hmem
    rw [if_neg hnp] at hmem
    simp only [List.mem_map, List.mem_filter] at hmem
    obtain ⟨r0, ⟨hr0, _⟩, hmap⟩ := hmem
    refine ⟨r0, ?_, hmap.symm⟩
    exact Ity.Uniswap.dfs_routes_sound c network _ t0 _ t0 [] [] [] []
      (by simp) ⟨rfl, rfl⟩ (by simp) (by simp) r0 hr0
  · intro c network t0 hp r hmem
    unfold Ity.Uniswap.findPathSubgraph at hmem
    rw [if_pos hp] at hmem
    cases hh : Ity.Uniswap.getPeggedNextHop c t0 network with
    | none => rw [hh] at hmem; simp at hmem
    | some h =>
      rw [hh] at hmem
      simp only [List.mem_singleton] at hmem
      exact ⟨h, hmem, Ity.Uniswap.getPeggedNextHop_terminal hh⟩
  · intro c network token isPegged hlen p hp
    unfold Ity.Uniswap.getPair at hp
    by_cases hw : Ity.Uniswap.lowercase token = Ity.Uniswap.getWeth network
    · rw [if_pos hw] at hp; simp at hp
    · rw [if_neg hw] at hp
      rw [if_pos hlen] at hp
      exact of_decide_eq_true (List.mem_filter.mp hp).2
  · have h : (Ity.Uniswap.findPathSubgraph Ity.Uniswap.cEx "eth" "0xt0").map
        (fun r => (r.filter Ity.Uniswap.isInteriorHop).length) =
        [Ity.Uniswap.MAX_HOPS + 1] := by rfl
    cases hfp : Ity.Uniswap.findPathSubgraph Ity.Uniswap.cEx "eth" "0xt0" with
    | nil => rw [hfp] at h; simp at h
    | cons r rest =>
      rw [hfp] at h
      simp only [List.map_cons, List.cons.injEq] at h
      exact ⟨r, hfp ▸ List.mem_cons_self r rest, h.1⟩

/-- **C4, witness.**  On `cCap` (eleven pairs per token, one pegged-next)
the `> 10` cap of the amended claim applies: the surviving pair's `next`
is the pegged USDC. -/
theorem c4_swap_path_structure_amended_witness :
    (Ity.Uniswap.mkHop Ity.Uniswap.usdc "0xp9").next ∈
      Ity.Uniswap.peggedValues "eth" :=
  c4_swap_path_structure_amended.2.2.2.1 Ity.Uniswap.cCap "eth" "0xz" false
    (by decide) (Ity.Uniswap.mkHop Ity.Uniswap.usdc "0xp9") (by decide)

namespace Ity
namespace Flash

/-! ## Flash-loan middleware (`onchain/flashloan.rs`)

Addresses are `Nat` values below `2 ^ 160`; `EVMU512` arithmetic wraps,
modelled with an explicit `% 2 ^ 512`.  The interpreter stack is
abstracted as its `peek` function. -/

/-- `scale!()` (`flashloan.rs:55-59`). -/
def scale : Nat := 1000000

/-- Wrapping `EVMU512` arithmetic. -/
def wrap512 (n : Nat) : Nat := n % 2 ^ 512

/-- `HashSet::insert`. -/
def insertAddr (a : Nat) (s : List Nat) : List Nat :=
  if a ∈ s then s else a :: s

/-- `convert_u256_to_h160`: truncate a 256-bit word to its low 160 bits. -/
def truncAddr (n : Nat) : Nat := n % 2 ^ 160

/-- `FlashloanData` (`flashloan.rs:375-384`).  `prev_reserves`,
`unliquidated_tokens` and `extra_info` are carried but not touched by the
modelled operations. -/
structure FlashloanData where
  oracleRecheckReserve : List Nat
  oracleRecheckBalance : List Nat
  owed : Nat
  earned : Nat
  prevReserves : List (Nat × (Nat × Nat))
  unliquidatedTokens : List (Nat × Nat)
  extraInfo : String
  deriving Repr, DecidableEq

/-- `FlashloanData::new`. -/
def FlashloanData.new : FlashloanData :=
  { oracleRecheckReserve := [], oracleRecheckBalance := [], owed := 0,
    earned := 0, prevReserves := [], unliquidatedTokens := [], extraInfo := "" }

/-- The middleware's own classification state
(`known_addresses`, `erc20_address`, `pair_address`). -/
structure Flashloan where
  knownAddresses : List Nat
  erc20Address : List Nat
  pairAddress : List Nat
  deriving Repr, DecidableEq

/-- `Flashloan::analyze_call` (`flashloan.rs:286-304`). -/
def analyzeCall (f : Flashloan) (txnValue : Option Nat) (contract : Nat)
    (d : FlashloanData) : FlashloanData :=
  let d := match txnValue with
    | some v => { d with owed := wrap512 (d.owed + wrap512 (v * scale)) }
    | none => d
  let d := if contract ∈ f.erc20Address then
      { d with oracleRecheckBalance := insertAddr contract d.oracleRecheckBalance }
    else d
  if contract ∈ f.pairAddress then
    { d with oracleRecheckReserve := insertAddr contract d.oracleRecheckReserve }
  else d

/-- `Flashloan::on_step` (`flashloan.rs:323-368`), acting on the
host's `flashloan_data`.  The first `match` lets `CALL` (0xf1) and
`STATICCALL` (0xfa) fall through, handles `SSTORE` (0x55), and returns
for every other opcode — `CALLCODE` (0xf2) and `DELEGATECALL` (0xf4)
included.  The second `match` (value from stack[2] for 0xf1/0xf2) is
kept verbatim, its 0xf2 arm being dead code.  `convert_u256_to_h160`
truncates to 160 bits. -/
def onStep (f : Flashloan) (callers : List Nat) (opcode : Nat)
    (contractAddr : Nat) (peek : Nat → Nat) (d : FlashloanData) : FlashloanData :=
  if opcode = 0xf1 ∨ opcode = 0xfa then
    let valueTransfer := if opcode = 0xf1 ∨ opcode = 0xf2 then peek 2 else 0
    let callTarget := truncAddr (peek 1)
    let d := if valueTransfer > 0 ∧ callTarget ∈ callers then
        { d with earned := wrap512 (d.earned + wrap512 (valueTransfer * scale)) }
      else d
    let callTarget := truncAddr (peek 1)
    if callTarget ∈ f.erc20Address then
      { d with oracleRecheckBalance := insertAddr callTarget d.oracleRecheckBalance }
    else d
  else if opcode = 0x55 then
    if contractAddr ∈ f.pairAddress ∧ peek 0 = 8 then
      { d with oracleRecheckReserve := insertAddr contractAddr d.oracleRecheckReserve }
    else d
  else d

/-- `Flashloan::on_contract_insertion` (`flashloan.rs:205-258`).
`tokenCtxAvailable` abstracts `get_token_context` returning `Some`;
`oracleBorrowOk` abstracts `flashloan_oracle.try_borrow_mut().is_ok()`. -/
def onContractInsertion (f : Flashloan) (addr : Nat) (abi : List ABIConfig)
    (tokenCtxAvailable oracleBorrowOk : Bool) : (Bool × Bool) × Flashloan :=
  if addr ∈ f.knownAddresses then ((false, false), f)
  else
    let f := { f with knownAddresses := insertAddr addr f.knownAddresses }
    let abiNames := abi.map (·.functionName)
    let tokenSigs := ["balanceOf", "transfer", "transferFrom", "approve"]
    let pairSigs := ["skim", "sync", "swap"]
    let isErc20 := tokenSigs.all (fun x => abiNames.contains x) &&
      tokenCtxAvailable && oracleBorrowOk
    let f := if isErc20 then
        { f with erc20Address := insertAddr addr f.erc20Address } else f
    let isPair := pairSigs.all (fun x => abiNames.contains x)
    let f := if isPair then
        { f with pairAddress := insertAddr addr f.pairAddress } else f
    ((isErc20, isPair), f)

theorem mem_insertAddr {a b : Nat} {s : List Nat} :
    a ∈ insertAddr b s ↔ a = b ∨ a ∈ s := by
  unfold insertAddr
  by_cases h : b ∈ s
  · simp [h]; intro ha; subst ha; exact h
  · simp [h]

end Flash
end Ity

namespace Ity
namespace Flash

/-- A concrete stack for the C3 evaluation: callee 7 at stack[1],
value 5 at stack[2]. -/
def peekCE : Nat → Nat := fun i => if i = 1 then 7 else if i = 2 then 5 else 0

end Flash
end Ity

/-- **C3, counterexample.**  A `CALLCODE` (0xf2) step with value 5 > 0 at
stack[2] and callee 7 at stack[1], where 7 is both a synthetic caller and
a known ERC-20: `on_step` leaves the flash-loan data completely
unchanged — 0xf2 falls into the catch-all `return` arm of the first
`match` (`flashloan.rs:347-349`) — whereas the claim requires
`earned` to grow by `5 × 10⁶` and 7 to be inserted into
`oracle_recheck_balance`. -/
theorem c3_counterexample :
    Ity.Flash.onStep ⟨[], [7], []⟩ [7] 0xf2 1 Ity.Flash.peekCE
        Ity.Flash.FlashloanData.new = Ity.Flash.FlashloanData.new ∧
    Ity.Flash.wrap512 (Ity.Flash.FlashloanData.new.earned + 5 * Ity.Flash.scale) ≠
      Ity.Flash.FlashloanData.new.earned ∧
    7 ∉ Ity.Flash.FlashloanData.new.oracleRecheckBalance := by
  refine ⟨by rfl, ?_, by decide⟩
  have h : Ity.Flash.wrap512 (Ity.Flash.FlashloanData.new.earned + 5 * Ity.Flash.scale) =
      5000000 := by
    show (Ity.Flash.FlashloanData.new.earned + 5 * Ity.Flash.scale) % 2 ^ 512 = 5000000
    norm_num [Ity.Flash.FlashloanData.new, Ity.Flash.scale]
  rw [h]
  simp [Ity.Flash.FlashloanData.new]

/-- **C3, amended.**  Only `CALL` (0xf1) and `STATICCALL` (0xfa) reach
the call-handling arm of `on_step`.  For `CALL`, the callee is read from
stack[1] (truncated to 160 bits) and the value from stack[2]; if the
value is positive and the callee is a synthetic caller, `value × 10⁶` is
added (wrapping `U512`) to `earned`, and if the callee is a known ERC-20
it is inserted into `oracle_recheck_balance`.  For `STATICCALL` the value
is treated as zero (`earned` unchanged) but the ERC-20 re-check still
happens.  `CALLCODE` (0xf2) and `DELEGATECALL` (0xf4) steps leave the
data untouched. -/
theorem c3_on_step_amended (f : Ity.Flash.Flashloan) (callers : List Nat)
    (a : Nat) (peek : Nat → Nat) (d : Ity.Flash.FlashloanData) :
    ((Ity.Flash.onStep f callers 0xf1 a peek d).earned =
      (if 0 < peek 2 ∧ Ity.Flash.truncAddr (peek 1) ∈ callers then
        Ity.Flash.wrap512 (d.earned + Ity.Flash.wrap512 (peek 2 * Ity.Flash.scale))
      else d.earned)) ∧
    (Ity.Flash.onStep f callers 0xf1 a peek d).owed = d.owed ∧
    (∀ x, x ∈ (Ity.Flash.onStep f callers 0xf1 a peek d).oracleRecheckBalance ↔
      (x = Ity.Flash.truncAddr (peek 1) ∧ Ity.Flash.truncAddr (peek 1) ∈ f.erc20Address) ∨
        x ∈ d.oracleRecheckBalance) ∧
    (Ity.Flash.onStep f callers 0xfa a peek d).earned = d.earned ∧
    (∀ x, x ∈ (Ity.Flash.onStep f callers 0xfa a peek d).oracleRecheckBalance ↔
      (x = Ity.Flash.truncAddr (peek 1) ∧ Ity.Flash.truncAddr (peek 1) ∈ f.erc20Address) ∨
        x ∈ d.oracleRecheckBalance) ∧
    Ity.Flash.onStep f callers 0xf2 a peek d = d ∧
    Ity.Flash.onStep f callers 0xf4 a peek d = d := by
  unfold Ity.Flash.onStep
  refine ⟨?_, ?_, ?_, ?_, ?_, ?_, ?_⟩
  · by_cases h1 : 0 < peek 2 ∧ Ity.Flash.truncAddr (peek 1) ∈ callers <;>
      by_cases h2 : Ity.Flash.truncAddr (peek 1) ∈ f.erc20Address <;>
      simp [h1, h2]
  · by_cases h1 : 0 < peek 2 ∧ Ity.Flash.truncAddr (peek 1) ∈ callers <;>
      by_cases h2 : Ity.Flash.truncAddr (peek 1) ∈ f.erc20Address <;>
      simp [h1, h2]
  · intro x
    by_cases h1 : 0 < peek 2 ∧ Ity.Flash.truncAddr (peek 1) ∈ callers <;>
      by_cases h2 : Ity.Flash.truncAddr (peek 1) ∈ f.erc20Address <;>
      simp [h1, h2, Ity.Flash.mem_insertAddr]
  · by_cases h2 : Ity.Flash.truncAddr (peek 1) ∈ f.erc20Address <;> simp [h2]
  · intro x
    by_cases h2 : Ity.Flash.truncAddr (peek 1) ∈ f.erc20Address <;>
      simp [h2, Ity.Flash.mem_insertAddr]
  · simp
  · simp

namespace Ity
namespace Flash

/-- One ledger-relevant event during a transaction's execution: the
middleware's `analyze_call` at transaction start, or an interpreter step
observed by `on_step`. -/
inductive TxEvent where
  | analyze (txnValue : Option Nat) (contract : Nat)
  | step (opcode : Nat) (contractAddr : Nat) (peek : Nat → Nat)

/-- Apply one event to the flash-loan ledger. -/
def applyEvent (f : Flashloan) (callers : List Nat) (d : FlashloanData) :
    TxEvent → FlashloanData
  | .analyze v contract => analyzeCall f v contract d
  | .step op a peek => onStep f callers op a peek d

/-- Run an execution sequence over the ledger. -/
def runEvents (f : Flashloan) (callers : List Nat) (d : FlashloanData)
    (events : List TxEvent) : FlashloanData :=
  events.foldl (applyEvent f callers) d

/-- The transaction value an event contributes to `owed` (zero for
steps and for value-less transactions). -/
def txnValueOf : TxEvent → Nat
  | .analyze (some v) _ => v
  | .analyze none _ => 0
  | .step _ _ _ => 0

/-- `v₁ + … + vₙ` of an execution sequence. -/
def sumTxnValues (events : List TxEvent) : Nat :=
  (events.map txnValueOf).sum

/-- The (already 10⁶-scaled) amount an event adds to `earned`: a `CALL`
with positive value to a synthetic caller contributes `value × 10⁶`. -/
def earnedContrib (callers : List Nat) : TxEvent → Nat
  | .analyze _ _ => 0
  | .step op _ peek =>
    if op = 0xf1 ∨ op = 0xfa then
      let v := if op = 0xf1 ∨ op = 0xf2 then peek 2 else 0
      if 0 < v ∧ truncAddr (peek 1) ∈ callers then v * scale else 0
    else 0

/-- Total `earned` contribution of a sequence. -/
def earnedTotal (callers : List Nat) (events : List TxEvent) : Nat :=
  (events.map (earnedContrib callers)).sum

theorem analyzeCall_owed (f : Flashloan) (v : Option Nat) (contract : Nat)
    (d : FlashloanData) :
    (analyzeCall f v contract d).owed =
      match v with
      | some v => wrap512 (d.owed + wrap512 (v * scale))
      | none => d.owed := by
  unfold analyzeCall
  cases v <;>
    by_cases h1 : contract ∈ f.erc20Address <;>
    by_cases h2 : contract ∈ f.pairAddress <;>
    simp [h1, h2]

theorem analyzeCall_earned (f : Flashloan) (v : Option Nat) (contract : Nat)
    (d : FlashloanData) :
    (analyzeCall f v contract d).earned = d.earned := by
  unfold analyzeCall
  cases v <;>
    by_cases h1 : contract ∈ f.erc20Address <;>
    by_cases h2 : contract ∈ f.pairAddress <;>
    simp [h1, h2]

theorem onStep_owed (f : Flashloan) (callers : List Nat) (op a : Nat)
    (peek : Nat → Nat) (d : FlashloanData) :
    (onStep f callers op a peek d).owed = d.owed := by
  unfold onStep
  simp [apply_ite FlashloanData.owed]

theorem onStep_earned (f : Flashloan) (callers : List Nat) (op a : Nat)
    (peek : Nat → Nat) (d : FlashloanData) :
    (onStep f callers op a peek d).earned =
      if op = 0xf1 ∨ op = 0xfa then
        (if 0 < (if op = 0xf1 ∨ op = 0xf2 then peek 2 else 0) ∧
            truncAddr (peek 1) ∈ callers then
          wrap512 (d.earned +
            wrap512 ((if op = 0xf1 ∨ op = 0xf2 then peek 2 else 0) * scale))
        else d.earned)
      else d.earned := by
  unfold onStep
  by_cases h0 : op = 0xf1 ∨ op = 0xfa
  · by_cases h2 : 0 < (if op = 0xf1 ∨ op = 0xf2 then peek 2 else 0) ∧
        truncAddr (peek 1) ∈ callers <;>
      by_cases h3 : truncAddr (peek 1) ∈ f.erc20Address <;>
      simp [h0, h2, h3]
  · by_cases h4 : op = 0x55
    · by_cases h5 : a ∈ f.pairAddress ∧ peek 0 = 8 <;> simp [h0, h4, h5]
    · simp [h0, h4]

theorem applyEvent_owed (f : Flashloan) (callers : List Nat)
    (d : FlashloanData) (e : TxEvent) (hd : d.owed < 2 ^ 512) :
    (applyEvent f callers d e).owed = (d.owed + txnValueOf e * scale) % 2 ^ 512 := by
  cases e with
  | analyze v contract =>
    cases v with
    | some v =>
      show (analyzeCall f (some v) contract d).owed = _
      rw [analyzeCall_owed]
      show wrap512 (d.owed + wrap512 (v * scale)) = _
      unfold wrap512
      simp [txnValueOf, Nat.add_mod_mod]
    | none =>
      show (analyzeCall f none contract d).owed = _
      rw [analyzeCall_owed]
      simp [txnValueOf, Nat.mod_eq_of_lt hd]
  | step op a peek =>
    show (onStep f callers op a peek d).owed = _
    rw [onStep_owed]
    simp [txnValueOf, Nat.mod_eq_of_lt hd]

theorem applyEvent_earned (f : Flashloan) (callers : List Nat)
    (d : FlashloanData) (e : TxEvent) (hd : d.earned < 2 ^ 512) :
    (applyEvent f callers d e).earned =
      (d.earned + earnedContrib callers e) % 2 ^ 512 := by
  cases e with
  | analyze v contract =>
    show (analyzeCall f v contract d).earned = _
    rw [analyzeCall_earned]
    simp [earnedContrib, Nat.mod_eq_of_lt hd]
  | step op a peek =>
    show (onStep f callers op a peek d).earned = _
    rw [onStep_earned]
    unfold earnedContrib
    by_cases h0 : op = 0xf1 ∨ op = 0xfa
    · by_cases h2 : 0 < (if op = 0xf1 ∨ op = 0xf2 then peek 2 else 0) ∧
          truncAddr (peek 1) ∈ callers
      · simp only [if_pos h0, if_pos h2]
        unfold wrap512
        simp [Nat.add_mod_mod]
      · simp [h0, h2, Nat.mod_eq_of_lt hd]
    · simp [h0, Nat.mod_eq_of_lt hd]

theorem runEvents_owed (f : Flashloan) (callers : List Nat) :
    ∀ (events : List TxEvent) (d : FlashloanData), d.owed < 2 ^ 512 →
      (runEvents f callers d events).owed =
        (d.owed + scale * sumTxnValues events) % 2 ^ 512 := by
  intro events
  induction events with
  | nil =>
    intro d hd
    simp [runEvents, sumTxnValues, Nat.mod_eq_of_lt hd]
  | cons e es ih =>
    intro d hd
    have hstep := applyEvent_owed f callers d e hd
    have hlt : (applyEvent f callers d e).owed < 2 ^ 512 := by
      rw [hstep]; exact Nat.mod_lt _ (by positivity)
    have := ih (applyEvent f callers d e) hlt
    show (runEvents f callers (applyEvent f callers d e) es).owed = _
    rw [this, hstep]
    rw [Nat.mod_add_mod]
    congr 1
    simp [sumTxnValues]
    ring

theorem runEvents_earned (f : Flashloan) (callers : List Nat) :
    ∀ (events : List TxEvent) (d : FlashloanData), d.earned < 2 ^ 512 →
      (runEvents f callers d events).earned =
        (d.earned + earnedTotal callers events) % 2 ^ 512 := by
  intro events
  induction events with
  | nil =>
    intro d hd
    simp [runEvents, earnedTotal, Nat.mod_eq_of_lt hd]
  | cons e es ih =>
    intro d hd
    have hstep := applyEvent_earned f callers d e hd
    have hlt : (applyEvent f callers d e).earned < 2 ^ 512 := by
      rw [hstep]; exact Nat.mod_lt _ (by positivity)
    have := ih (applyEvent f callers d e) hlt
    show (runEvents f callers (applyEvent f callers d e) es).earned = _
    rw [this, hstep]
    rw [Nat.mod_add_mod]
    congr 1
    simp [earnedTotal]
    ring

theorem sum_take_le (l : List Nat) (n : Nat) : (l.take n).sum ≤ l.sum := by
  conv_rhs => rw [← List.take_append_drop n l]
  rw [List.sum_append]
  exact Nat.le_add_right _ _

theorem sum_take_succ_le (l : List Nat) (n : Nat) :
    (l.take n).sum ≤ (l.take (n + 1)).sum := by
  have h := sum_take_le (l.take (n + 1)) n
  rwa [List.take_take, min_eq_left (Nat.le_succ n)] at h

end Flash
end Ity

namespace Ity
namespace Flash

theorem sumTxnValues_take (events : List TxEvent) (n : Nat) :
    sumTxnValues (events.take n) = ((events.map txnValueOf).take n).sum := by
  rw [sumTxnValues, List.map_take]

theorem earnedTotal_take (callers : List Nat) (events : List TxEvent) (n : Nat) :
    earnedTotal callers (events.take n) =
      ((events.map (earnedContrib callers)).take n).sum := by
  rw [earnedTotal, List.map_take]

theorem sumTxnValues_take_le (events : List TxEvent) (n : Nat) :
    sumTxnValues (events.take n) ≤ sumTxnValues events := by
  rw [sumTxnValues_take]; exact sum_take_le _ _

theorem earnedTotal_take_le (callers : List Nat) (events : List TxEvent) (n : Nat) :
    earnedTotal callers (events.take n) ≤ earnedTotal callers events := by
  rw [earnedTotal_take]; exact sum_take_le _ _

end Flash
end Ity

/-- **C5.**  Over any execution sequence of `analyze_call` and `on_step`
events started from a fresh ledger, and under the (always satisfiable in
practice) hypotheses that the scaled totals stay below `2 ^ 512` so the
wrapping `U512` accumulators do not overflow: `owed` equals
`(∑ vᵢ) × 10⁶` exactly — this code path contains no synthetic-Borrow
branch, so the claimed `owed ≥ (∑ vᵢ) × 10⁶` holds with equality —
`earned` equals the sum of the per-step `CALL` contributions (hence both
ledgers are non-negative, being `Nat`), and both `owed` and `earned` are
monotonically non-decreasing along every prefix of the sequence. -/
theorem c5_flashloan_accounting (f : Ity.Flash.Flashloan) (callers : List Nat)
    (events : List Ity.Flash.TxEvent)
    (hOwed : Ity.Flash.scale * Ity.Flash.sumTxnValues events < 2 ^ 512)
    (hEarned : Ity.Flash.earnedTotal callers events < 2 ^ 512) :
    (Ity.Flash.runEvents f callers Ity.Flash.FlashloanData.new events).owed =
      Ity.Flash.scale * Ity.Flash.sumTxnValues events ∧
    Ity.Flash.scale * Ity.Flash.sumTxnValues events ≤
      (Ity.Flash.runEvents f callers Ity.Flash.FlashloanData.new events).owed ∧
    (Ity.Flash.runEvents f callers Ity.Flash.FlashloanData.new events).earned =
      Ity.Flash.earnedTotal callers events ∧
    (∀ n, (Ity.Flash.runEvents f callers Ity.Flash.FlashloanData.new
            (events.take n)).owed ≤
          (Ity.Flash.runEvents f callers Ity.Flash.FlashloanData.new
            (events.take (n + 1))).owed) ∧
    (∀ n, (Ity.Flash.runEvents f callers Ity.Flash.FlashloanData.new
            (events.take n)).earned ≤
          (Ity.Flash.runEvents f callers Ity.Flash.FlashloanData.new
            (events.take (n + 1))).earned) := by
  have hnew_owed : Ity.Flash.FlashloanData.new.owed < 2 ^ 512 := by
    show (0 : Nat) < 2 ^ 512; positivity
  have hnew_earned : Ity.Flash.FlashloanData.new.earned < 2 ^ 512 := by
    show (0 : Nat) < 2 ^ 512; positivity
  have howed_take : ∀ n, (Ity.Flash.runEvents f callers Ity.Flash.FlashloanData.new
      (events.take n)).owed =
      Ity.Flash.scale * Ity.Flash.sumTxnValues (events.take n) := by
    intro n
    rw [Ity.Flash.runEvents_owed f callers (events.take n) _ hnew_owed]
    have hle : Ity.Flash.scale * Ity.Flash.sumTxnValues (events.take n) <
        2 ^ 512 :=
      lt_of_le_of_lt
        (Nat.mul_le_mul_left _ (Ity.Flash.sumTxnValues_take_le events n)) hOwed
    show (Ity.Flash.FlashloanData.new.owed + _) % 2 ^ 512 = _
    rw [show Ity.Flash.FlashloanData.new.owed = 0 from rfl, Nat.zero_add,
      Nat.mod_eq_of_lt hle]
  have hearned_take : ∀ n, (Ity.Flash.runEvents f callers Ity.Flash.FlashloanData.new
      (events.take n)).earned =
      Ity.Flash.earnedTotal callers (events.take n) := by
    intro n
    rw [Ity.Flash.runEvents_earned f callers (events.take n) _ hnew_earned]
    have hle : Ity.Flash.earnedTotal callers (events.take n) < 2 ^ 512 :=
      lt_of_le_of_lt (Ity.Flash.earnedTotal_take_le callers events n) hEarned
    show (Ity.Flash.FlashloanData.new.earned + _) % 2 ^ 512 = _
    rw [show Ity.Flash.FlashloanData.new.earned = 0 from rfl, Nat.zero_add,
      Nat.mod_eq_of_lt hle]
  have howed : (Ity.Flash.runEvents f callers Ity.Flash.FlashloanData.new
      events).owed = Ity.Flash.scale * Ity.Flash.sumTxnValues events := by
    rw [Ity.Flash.runEvents_owed f callers events _ hnew_owed]
    show (Ity.Flash.FlashloanData.new.owed + _) % 2 ^ 512 = _
    rw [show Ity.Flash.FlashloanData.new.owed = 0 from rfl, Nat.zero_add,
      Nat.mod_eq_of_lt hOwed]
  have hearned : (Ity.Flash.runEvents f callers Ity.Flash.FlashloanData.new
      events).earned = Ity.Flash.earnedTotal callers events := by
    rw [Ity.Flash.runEvents_earned f callers events _ hnew_earned]
    show (Ity.Flash.FlashloanData.new.earned + _) % 2 ^ 512 = _
    rw [show Ity.Flash.FlashloanData.new.earned = 0 from rfl, Nat.zero_add,
      Nat.mod_eq_of_lt hEarned]
  refine ⟨howed, le_of_eq howed.symm, hearned, ?_, ?_⟩
  · intro n
    rw [howed_take n, howed_take (n + 1)]
    refine Nat.mul_le_mul_left _ ?_
    rw [Ity.Flash.sumTxnValues_take, Ity.Flash.sumTxnValues_take]
    exact Ity.Flash.sum_take_succ_le _ n
  · intro n
    rw [hearned_take n, hearned_take (n + 1)]
    rw [Ity.Flash.earnedTotal_take, Ity.Flash.earnedTotal_take]
    exact Ity.Flash.sum_take_succ_le _ n

/-- **C5, witness.**  A two-event sequence: a transaction with value 3
against contract 9, then a `CALL` step of value 5 to synthetic caller 7:
`owed = 3 × 10⁶`, `earned = 5 × 10⁶`, both monotone along prefixes. -/
theorem c5_flashloan_accounting_witness :
    (Ity.Flash.runEvents ⟨[], [], []⟩ [7] Ity.Flash.FlashloanData.new
      [Ity.Flash.TxEvent.analyze (some 3) 9,
       Ity.Flash.TxEvent.step 0xf1 9 Ity.Flash.peekCE]).owed =
      Ity.Flash.scale * Ity.Flash.sumTxnValues
        [Ity.Flash.TxEvent.analyze (some 3) 9,
         Ity.Flash.TxEvent.step 0xf1 9 Ity.Flash.peekCE] ∧
    Ity.Flash.scale * Ity.Flash.sumTxnValues
        [Ity.Flash.TxEvent.analyze (some 3) 9,
         Ity.Flash.TxEvent.step 0xf1 9 Ity.Flash.peekCE] ≤
      (Ity.Flash.runEvents ⟨[], [], []⟩ [7] Ity.Flash.FlashloanData.new
        [Ity.Flash.TxEvent.analyze (some 3) 9,
         Ity.Flash.TxEvent.step 0xf1 9 Ity.Flash.peekCE]).owed ∧
    (Ity.Flash.runEvents ⟨[], [], []⟩ [7] Ity.Flash.FlashloanData.new
      [Ity.Flash.TxEvent.analyze (some 3) 9,
       Ity.Flash.TxEvent.step 0xf1 9 Ity.Flash.peekCE]).earned =
      Ity.Flash.earnedTotal [7]
        [Ity.Flash.TxEvent.analyze (some 3) 9,
         Ity.Flash.TxEvent.step 0xf1 9 Ity.Flash.peekCE] ∧
    (∀ n, (Ity.Flash.runEvents ⟨[], [], []⟩ [7] Ity.Flash.FlashloanData.new
            ([Ity.Flash.TxEvent.analyze (some 3) 9,
              Ity.Flash.TxEvent.step 0xf1 9 Ity.Flash.peekCE].take n)).owed ≤
          (Ity.Flash.runEvents ⟨[], [], []⟩ [7] Ity.Flash.FlashloanData.new
            ([Ity.Flash.TxEvent.analyze (some 3) 9,
              Ity.Flash.TxEvent.step 0xf1 9 Ity.Flash.peekCE].take (n + 1))).owed) ∧
    (∀ n, (Ity.Flash.runEvents ⟨[], [], []⟩ [7] Ity.Flash.FlashloanData.new
            ([Ity.Flash.TxEvent.analyze (some 3) 9,
              Ity.Flash.TxEvent.step 0xf1 9 Ity.Flash.peekCE].take n)).earned ≤
          (Ity.Flash.runEvents ⟨[], [], []⟩ [7] Ity.Flash.FlashloanData.new
            ([Ity.Flash.TxEvent.analyze (some 3) 9,
              Ity.Flash.TxEvent.step 0xf1 9 Ity.Flash.peekCE].take (n + 1))).earned) :=
  c5_flashloan_accounting ⟨[], [], []⟩ [7]
    [Ity.Flash.TxEvent.analyze (some 3) 9,
     Ity.Flash.TxEvent.step 0xf1 9 Ity.Flash.peekCE]
    (by norm_num [Ity.Flash.scale, Ity.Flash.sumTxnValues, Ity.Flash.txnValueOf])
    (by norm_num [Ity.Flash.earnedTotal, Ity.Flash.earnedContrib,
      Ity.Flash.peekCE, Ity.Flash.truncAddr, Ity.Flash.scale])

/-- **C6.**  For an address not yet classified, `on_contract_insertion`
returns `(true, _)` exactly when the ABI names include all of
`balanceOf`, `transfer`, `transferFrom`, `approve` AND a `TokenContext`
is available AND the oracle handle is not already mutably borrowed;
it returns `(_, true)` exactly when the names include all of `skim`,
`sync`, `swap`; a repeated call for the same address returns
`(false, false)`. -/
theorem c6_contract_classification (f : Ity.Flash.Flashloan) (addr : Nat)
    (abi abi' : List Ity.ABIConfig) (ctx ok ctx' ok' : Bool) :
    (addr ∉ f.knownAddresses →
      (((Ity.Flash.onContractInsertion f addr abi ctx ok).1.1 = true ↔
        ((∀ s ∈ ["balanceOf", "transfer", "transferFrom", "approve"],
            s ∈ abi.map Ity.ABIConfig.functionName) ∧ ctx = true ∧ ok = true)) ∧
      ((Ity.Flash.onContractInsertion f addr abi ctx ok).1.2 = true ↔
        (∀ s ∈ ["skim", "sync", "swap"],
            s ∈ abi.map Ity.ABIConfig.functionName)))) ∧
    (addr ∈ f.knownAddresses →
      (Ity.Flash.onContractInsertion f addr abi ctx ok).1 = (false, false)) ∧
    (Ity.Flash.onContractInsertion
      (Ity.Flash.onContractInsertion f addr abi ctx ok).2 addr abi' ctx' ok').1 =
      (false, false) := by
  have hmemknown : addr ∈ (Ity.Flash.onContractInsertion f addr abi ctx ok).2.knownAddresses := by
    unfold Ity.Flash.onContractInsertion
    by_cases hk : addr ∈ f.knownAddresses
    · simp [hk]
    · simp only [if_neg hk]
      split <;> split <;> simp [Ity.Flash.mem_insertAddr]
  have hknown : ∀ (g : Ity.Flash.Flashloan) (ab : List Ity.ABIConfig) (c o : Bool),
      addr ∈ g.knownAddresses →
      (Ity.Flash.onContractInsertion g addr ab c o).1 = (false, false) := by
    intro g ab c o hg
    unfold Ity.Flash.onContractInsertion
    simp [hg]
  refine ⟨?_, fun hk => hknown f abi ctx ok hk, hknown _ abi' ctx' ok' hmemknown⟩
  intro hk
  unfold Ity.Flash.onContractInsertion
  simp only [if_neg hk]
  refine ⟨?_, ?_⟩
  · simp only [List.all_eq_true, Bool.and_eq_true]
    simp
    tauto
  · simp only [List.all_eq_true, Bool.and_eq_true]
    simp

namespace Ity
namespace Flash

/-- An ABI exposing both the four ERC-20 names and the three pair names. -/
def c6abi : List ABIConfig :=
  ["balanceOf", "transfer", "transferFrom", "approve", "skim", "sync", "swap"].map
    fun n => { function := 0, functionName := n, abi := "()",
               isConstructor := false, isStatic := false, isPayable := false }

end Flash
end Ity

/-- **C6, witness.**  Inserting a fresh address whose ABI carries all
seven names, with a token context available and the oracle borrowable,
classifies it as both ERC-20 and pair; re-inserting it returns
`(false, false)`. -/
theorem c6_contract_classification_witness :
    (Ity.Flash.onContractInsertion ⟨[], [], []⟩ 5 Ity.Flash.c6abi true true).1 =
      (true, true) ∧
    (Ity.Flash.onContractInsertion
      (Ity.Flash.onContractInsertion ⟨[], [], []⟩ 5 Ity.Flash.c6abi true true).2
      5 [] false false).1 = (false, false) := by
  have h := c6_contract_classification ⟨[], [], []⟩ 5 Ity.Flash.c6abi [] true true false false
  have hk : (5 : Nat) ∉ Ity.Flash.Flashloan.knownAddresses ⟨[], [], []⟩ := by decide
  obtain ⟨hiff1, hiff2⟩ := h.1 hk
  refine ⟨?_, h.2.2⟩
  have e1 : (Ity.Flash.onContractInsertion ⟨[], [], []⟩ 5 Ity.Flash.c6abi true true).1.1 =
      true := hiff1.mpr ⟨by decide, rfl, rfl⟩
  have e2 : (Ity.Flash.onContractInsertion ⟨[], [], []⟩ 5 Ity.Flash.c6abi true true).1.2 =
      true := hiff2.mpr (by decide)
  cases hp : (Ity.Flash.onContractInsertion ⟨[], [], []⟩ 5 Ity.Flash.c6abi true true).1
  rw [hp] at e1 e2
  simp at e1 e2
  rw [e1, e2]

namespace Ity
namespace Seed

/-! ## Seed-input fabrication
(`EVMCorpusInitializer::add_abi` and the seed loop of `initialize_corpus`,
`corpus_initializer.rs:346-356` and `415-478`)

The `print_txn_corpus` and `use_presets` features are off and
`fuzz_static` is off (the default build), and the `hash_to_address`
bookkeeping is not observed by the claim.  `get_rand_caller` draws an
arbitrary element of the registered callers, modelled by an index into
the caller list. -/

/-- `EVMInputTy` (the variants the initializer produces). -/
inductive EVMInputTy where
  | ABI
  | Borrow
  deriving Repr, DecidableEq

/-- `BoxedABI` after `get_abi_type_boxed(&abi.abi)` and
`set_func_with_signature(function, name, abi)`. -/
structure BoxedABI where
  selector : Nat
  functionName : String
  abiType : String
  deriving Repr, DecidableEq

/-- The `EVMInput` fields populated by `add_abi` (the env, access
pattern and direct-data fields carry no claim-relevant content). -/
structure EVMInput where
  inputType : EVMInputTy
  caller : Nat
  contract : Nat
  data : Option BoxedABI
  sstateIdx : Nat
  txnValue : Option Nat
  step : Bool
  liquidationPercent : Nat
  randomness : List Nat
  repeat_ : Nat
  deriving Repr, DecidableEq

/-- `state.get_rand_caller()`: some element of the registered callers. -/
def getRandCaller (callers : List Nat) (randIdx : Nat) : Nat :=
  callers.getD (randIdx % callers.length) 0

/-- `add_abi` (`corpus_initializer.rs:415-478`): the list of seed inputs
added to the corpus for one `ABIConfig` (empty for constructors and,
without the `fuzz_static` feature, for static functions; a singleton
otherwise). -/
def addAbi (abi : ABIConfig) (deployedAddress : Nat) (callers : List Nat)
    (randIdx : Nat) : List EVMInput :=
  if abi.isConstructor then []
  else if abi.isStatic then []
  else
    let abiInstance : BoxedABI :=
      { selector := abi.function, functionName := abi.functionName,
        abiType := abi.abi }
    [{ inputType := EVMInputTy.ABI,
       caller := getRandCaller callers randIdx,
       contract := deployedAddress,
       data := if abi.functionName ≠ "!receive!" then some abiInstance else none,
       sstateIdx := 0,
       txnValue := if abi.isPayable then some 0 else none,
       step := false,
       liquidationPercent := 0,
       randomness := [0],
       repeat_ := 1 }]

/-- The skip filter of the seed loop (`corpus_initializer.rs:349`):
`invariant_`/`echidna_` prefixes, `setUp`, `failed`. -/
def skipName (name : String) : Bool :=
  name.startsWith "invariant_" || name.startsWith "echidna_" ||
    name == "setUp" || name == "failed"

/-- The seed loop of `initialize_corpus` over one contract's ABI list:
skip filtered names, call `add_abi` for the rest (`randIdx` supplies the
per-call caller draw by position). -/
def seedInputs (abis : List ABIConfig) (deployedAddress : Nat)
    (callers : List Nat) (randIdx : Nat → Nat) : List EVMInput :=
  (abis.filter (fun a => !skipName a.functionName)).enum.bind
    (fun ia => addAbi ia.2 deployedAddress callers (randIdx ia.1))

end Seed
end Ity

/-- **C7.**  Every seed input `add_abi` creates has type `ABI`,
`data = Some(boxed ABI)` except for the synthetic `!receive!` (then
`None`), `txn_value = Some(0)` iff the function is payable (`None`
otherwise), `repeat = 1`, `randomness = [0]`, `contract` the deployed
address, and a caller drawn from the registered callers; and for a
single non-payable, non-static, non-constructor function (whose name is
not skip-filtered) exactly one such seed input is added by the seed
loop. -/
theorem c7_seed_inputs (abi : Ity.ABIConfig) (deployedAddress : Nat)
    (callers : List Nat) (randIdx : Nat) (hc : callers ≠ []) :
    (∀ inp ∈ Ity.Seed.addAbi abi deployedAddress callers randIdx,
      inp.inputType = Ity.Seed.EVMInputTy.ABI ∧
      inp.contract = deployedAddress ∧
      inp.caller ∈ callers ∧
      inp.repeat_ = 1 ∧
      inp.randomness = [0] ∧
      (inp.data = none ↔ abi.functionName = "!receive!") ∧
      (inp.txnValue = some 0 ↔ abi.isPayable = true) ∧
      (inp.txnValue = none ↔ abi.isPayable = false)) ∧
    (abi.isConstructor = false → abi.isStatic = false →
      (Ity.Seed.addAbi abi deployedAddress callers randIdx).length = 1) ∧
    (abi.isConstructor = false → abi.isStatic = false →
      Ity.Seed.skipName abi.functionName = false →
      (Ity.Seed.seedInputs [abi] deployedAddress callers (fun _ => randIdx)).length
        = 1) := by
  have hcaller : Ity.Seed.getRandCaller callers randIdx ∈ callers := by
    unfold Ity.Seed.getRandCaller
    have hlen : 0 < callers.length := List.length_pos.mpr hc
    have hlt : randIdx % callers.length < callers.length := Nat.mod_lt _ hlen
    rw [List.getD_eq_getElem callers 0 hlt]
    exact List.getElem_mem _
  refine ⟨?_, ?_, ?_⟩
  · intro inp hmem
    unfold Ity.Seed.addAbi at hmem
    by_cases h1 : abi.isConstructor
    · simp [h1] at hmem
    · by_cases h2 : abi.isStatic
      · simp [h1, h2] at hmem
      · simp only [if_neg h1, if_neg h2, List.mem_singleton] at hmem
        subst hmem
        refine ⟨rfl, rfl, hcaller, rfl, rfl, ?_, ?_, ?_⟩
        · by_cases h3 : abi.functionName = "!receive!" <;> simp [h3]
        · by_cases h4 : abi.isPayable <;> simp [h4]
        · by_cases h4 : abi.isPayable <;> simp [h4]
  · intro h1 h2
    unfold Ity.Seed.addAbi
    simp [h1, h2]
  · intro h1 h2 h3
    unfold Ity.Seed.seedInputs Ity.Seed.addAbi
    simp [h1, h2, h3]

/-- **C7, witness.**  The single function `f()` (non-payable, non-static,
non-constructor): the seed input drawn for default caller index 0 has
all the claimed fields, and exactly one input is seeded. -/
theorem c7_seed_inputs_witness :
    (∀ inp ∈ Ity.Seed.addAbi Ity.sampleAbi 77 [11, 22] 0,
      inp.inputType = Ity.Seed.EVMInputTy.ABI ∧
      inp.contract = 77 ∧
      inp.caller ∈ [11, 22] ∧
      inp.repeat_ = 1 ∧
      inp.randomness = [0] ∧
      (inp.data = none ↔ Ity.sampleAbi.functionName = "!receive!") ∧
      (inp.txnValue = some 0 ↔ Ity.sampleAbi.isPayable = true) ∧
      (inp.txnValue = none ↔ Ity.sampleAbi.isPayable = false)) ∧
    (Ity.sampleAbi.isConstructor = false → Ity.sampleAbi.isStatic = false →
      (Ity.Seed.addAbi Ity.sampleAbi 77 [11, 22] 0).length = 1) ∧
    (Ity.sampleAbi.isConstructor = false → Ity.sampleAbi.isStatic = false →
      Ity.Seed.skipName Ity.sampleAbi.functionName = false →
      (Ity.Seed.seedInputs [Ity.sampleAbi] 77 [11, 22] (fun _ => 0)).length = 1) :=
  c7_seed_inputs Ity.sampleAbi 77 [11, 22] 0 (by decide)

namespace Ity
namespace TypedBug

/-! ## Typed-bug oracle (`oracles/typed_bug.rs`)

`DefaultHasher` over `(bug_id, pc)` is abstracted as a hash function
parameter `h`; `TYPED_BUG_BUG_IDX` (defined in the oracle module's
prelude, outside the sources at hand) is the parameter `bugIdx`.  The
`u64` left shift discards overflowing bits (`% 2 ^ 64`); the source-map
lookup (`BuildJobResult::get_sourcemap_executor`) is not modelled as no
claim depends on it. -/

/-- One emitted `EVMBugResult`. -/
structure BugReport where
  name : String
  realBugIdx : Nat
  description : String
  contractName : String
  deriving Repr, DecidableEq

/-- `hasher.finish() << (8 + TYPED_BUG_BUG_IDX)` on `u64`. -/
def realBugIdx (h : String → Nat → Nat) (bugIdx : Nat) (bugId : String)
    (pc : Nat) : Nat :=
  h bugId pc * 2 ^ (8 + bugIdx) % 2 ^ 64

/-- `TypedBugOracle::oracle` (`typed_bug.rs:46-99`): one report per
`(bug_id, (address, pc))` entry of the post-state's `typed_bug`, plus
the returned list of `real_bug_idx` values; nothing when `typed_bug` is
empty. -/
def typedBugOracle (h : String → Nat → Nat) (bugIdx : Nat)
    (names : Nat → Option String) (typedBug : List (String × Nat × Nat)) :
    List BugReport × List Nat :=
  if !typedBug.isEmpty then
    (typedBug.map (fun e =>
      { name := "Bug",
        realBugIdx := realBugIdx h bugIdx e.1 e.2.2,
        description := "Invariant " ++ e.1 ++ " violated",
        contractName := (names e.2.1).getD (toString e.2.1) }),
     typedBug.map (fun e => realBugIdx h bugIdx e.1 e.2.2))
  else ([], [])

end TypedBug
end Ity

/-- **C8.**  `TypedBugOracle.oracle` emits exactly one `BugReport` per
`(bug_id, address, pc)` entry of the post-state's `typed_bug` list, each
with `real_bug_idx = hash(bug_id, pc) << (8 + TYPED_BUG_BUG_IDX)`
(`u64` shift, overflow bits discarded), returns the same indices, and
emits nothing when `typed_bug` is empty. -/
theorem c8_typed_bug_oracle (h : String → Nat → Nat) (bugIdx : Nat)
    (names : Nat → Option String) (typedBug : List (String × Nat × Nat)) :
    (Ity.TypedBug.typedBugOracle h bugIdx names typedBug).1.length =
      typedBug.length ∧
    (Ity.TypedBug.typedBugOracle h bugIdx names typedBug).1.map
        (fun r => r.realBugIdx) =
      typedBug.map (fun e => h e.1 e.2.2 * 2 ^ (8 + bugIdx) % 2 ^ 64) ∧
    (Ity.TypedBug.typedBugOracle h bugIdx names typedBug).2 =
      typedBug.map (fun e => h e.1 e.2.2 * 2 ^ (8 + bugIdx) % 2 ^ 64) ∧
    (typedBug = [] →
      Ity.TypedBug.typedBugOracle h bugIdx names typedBug = ([], [])) := by
  unfold Ity.TypedBug.typedBugOracle Ity.TypedBug.realBugIdx
  by_cases he : typedBug.isEmpty
  · rw [List.isEmpty_iff] at he
    subst he
    simp
  · have he' : typedBug ≠ [] := fun hcon => he (by simp [hcon])
    simp [List.isEmpty_iff, he', List.map_map, Function.comp]

/-- **C8, witness.**  A one-entry `typed_bug` list under a concrete hash
function: one report with the shifted index, and the empty-list clause
holds vacuously. -/
theorem c8_typed_bug_oracle_witness :
    (Ity.TypedBug.typedBugOracle (fun s n => s.length + n) 2 (fun _ => none)
        [("b", 4, 10)]).1.length = [("b", 4, 10)].length ∧
    (Ity.TypedBug.typedBugOracle (fun s n => s.length + n) 2 (fun _ => none)
        [("b", 4, 10)]).1.map (fun r => r.realBugIdx) =
      [("b", 4, 10)].map
        (fun e => (e.1.length + e.2.2) * 2 ^ (8 + 2) % 2 ^ 64) ∧
    (Ity.TypedBug.typedBugOracle (fun s n => s.length + n) 2 (fun _ => none)
        [("b", 4, 10)]).2 =
      [("b", 4, 10)].map
        (fun e => (e.1.length + e.2.2) * 2 ^ (8 + 2) % 2 ^ 64) ∧
    ([("b", (4 : Nat), (10 : Nat))] = [] →
      Ity.TypedBug.typedBugOracle (fun s n => s.length + n) 2 (fun _ => none)
        [("b", 4, 10)] = ([], [])) :=
  c8_typed_bug_oracle (fun s n => s.length + n) 2 (fun _ => none) [("b", 4, 10)]
